import Mathlib

/-!
Shallow embedding of the `ace-rs` playbook store
(`src/models/playbook.rs`, `src/models/delta.rs`).

Rust `HashMap`s are modelled as association lists (`List (String × α)`):
the map order is unobservable in the source except where keys are sorted
before use, which the embedding mirrors.  `u32`/`i32`/`u64` are modelled
as `Nat`/`Int` with explicit clamping where the source saturates or
truncates.  `Utc::now()` is modelled by threading an explicit `now : Nat`
timestamp parameter through every mutating operation.
-/

namespace Ace

/-- Association-list lookup, modelling `HashMap::get`. -/
def alistLookup {α : Type} (m : List (String × α)) (k : String) : Option α :=
  match m with
  | [] => none
  | (k', v) :: rest => if k' = k then some v else alistLookup rest k

/-- Drop every binding of a key, modelling the effect of `HashMap::remove`
on the remaining map. -/
def eraseKey {α : Type} (m : List (String × α)) (k : String) : List (String × α) :=
  m.filter (fun kv => kv.1 ≠ k)

/-- Insert-or-replace a binding, modelling `HashMap::insert`
(the position of a binding in the list is not observable). -/
def alistInsert {α : Type} (m : List (String × α)) (k : String) (v : α) : List (String × α) :=
  (k, v) :: eraseKey m k

/-- The keys of an association list. -/
def alistKeys {α : Type} (m : List (String × α)) : List String := m.map Prod.fst

/-- Lexicographic order on codepoint lists (Rust's byte-lexicographic
`Ord` on `String` agrees with codepoint order under UTF-8). -/
def charsLt : List Char → List Char → Bool
  | [], [] => false
  | [], _ :: _ => true
  | _ :: _, [] => false
  | a :: as, b :: bs =>
    if a.toNat < b.toNat then true
    else if b.toNat < a.toNat then false
    else charsLt as bs

/-- Rust's `String` strict order. -/
def strLt (s t : String) : Bool := charsLt s.toList t.toList

/-- Rust's `String` non-strict order. -/
def strLe (s t : String) : Bool := !(strLt t s)

/-- Ordered insert, modelling `BTreeMap::insert` (keys kept sorted). -/
def btreeInsert {α : Type} (m : List (String × α)) (k : String) (v : α) : List (String × α) :=
  match m with
  | [] => [(k, v)]
  | (k', v') :: rest =>
    if k = k' then (k, v) :: rest
    else if strLt k k' then (k, v) :: (k', v') :: rest
    else (k', v') :: btreeInsert rest k v

/-- ASCII model of Rust's `str::to_uppercase`. -/
def rustToUpper (s : String) : String := String.mk (s.toList.map Char.toUpper)

/-- ASCII model of Rust's `str::to_lowercase`. -/
def rustToLower (s : String) : String := String.mk (s.toList.map Char.toLower)

/-- Whitespace predicate used by `str::split_whitespace`. -/
def isWs (c : Char) : Bool := c = ' ' || c = '\t' || c = '\n' || c = '\r'

/-- `section.split_whitespace().next()`: the first whitespace-delimited
token, or `none` when the string holds no such token. -/
def firstWsToken (s : String) : Option String :=
  let t := (s.toList.dropWhile isWs).takeWhile (fun c => !isWs c)
  if t.isEmpty then none else some (String.mk t)

/-- `format!("{:05}", n)`: decimal digits left-padded with zeros to width 5. -/
def pad5 (n : Nat) : String :=
  let s := toString n
  String.mk (List.replicate (5 - s.length) '0') ++ s

/-- `u32::MAX`. -/
def u32max : Nat := 4294967295

/-- `u32::saturating_add_signed`: clamp `x + d` into `[0, u32::MAX]`. -/
def satAddSigned (x : Nat) (d : Int) : Nat :=
  min (((x : Int) + d).toNat) u32max

/-- Wrapping truncation `i64 as i32`. -/
def toI32 (v : Int) : Int :=
  ((v + 2147483648) % 4294967296) - 2147483648

/-- The error enum `PlaybookError` (file-system variants omitted: file I/O
is out of scope). -/
inductive PlaybookError : Type where
  | BulletNotFound (id : String)
  | InvalidTag (t : String)
  | InvalidData (msg : String)
  | DeltaMissingField (msg : String)
deriving DecidableEq

/-- The `Bullet` struct.  `section` is a Lean keyword, so the field is
named `sect`; timestamps are abstract `Nat` instants. -/
structure Bullet : Type where
  id : String
  sect : String
  content : String
  helpful : Nat
  harmful : Nat
  neutral : Nat
  created_at : Nat
  updated_at : Nat
deriving DecidableEq

/-- `Bullet::new`: note the `id` field is initialised to the empty string. -/
def Bullet.new (now : Nat) (sect content : String) : Bullet :=
  { id := ""
    sect := sect
    content := content
    helpful := 0
    harmful := 0
    neutral := 0
    created_at := now
    updated_at := now }

/-- `Bullet::apply_metadata`: absolute counter values for recognized keys,
unrecognized keys skipped, then `updated_at` refreshed.  The `BTreeMap`
argument is modelled as its (duplicate-free) entry list. -/
def Bullet.apply_metadata (b : Bullet) (metadata : List (String × Nat)) (now : Nat) : Bullet :=
  let b' := metadata.foldl (fun acc kv =>
    if kv.1 = "helpful" then { acc with helpful := kv.2 }
    else if kv.1 = "harmful" then { acc with harmful := kv.2 }
    else if kv.1 = "neutral" then { acc with neutral := kv.2 }
    else acc) b
  { b' with updated_at := now }

/-- `Bullet::tag`: signed saturating increment of the named counter. -/
def Bullet.tag (b : Bullet) (t : String) (increment : Int) (now : Nat) :
    Except PlaybookError Bullet :=
  if t = "helpful" then
    Except.ok { b with helpful := satAddSigned b.helpful increment, updated_at := now }
  else if t = "harmful" then
    Except.ok { b with harmful := satAddSigned b.harmful increment, updated_at := now }
  else if t = "neutral" then
    Except.ok { b with neutral := satAddSigned b.neutral increment, updated_at := now }
  else
    Except.error (PlaybookError.InvalidTag t)

/-- The `Playbook` struct. -/
structure Playbook : Type where
  bullets : List (String × Bullet)
  sections : List (String × List String)
  next_id : Nat
deriving DecidableEq

/-- `Playbook::new` / `Default`: the empty store. -/
def Playbook.new : Playbook :=
  { bullets := [], sections := [], next_id := 0 }

/-- `Playbook::generate_id`: bump `next_id`, then build
`"<lowercased first whitespace token of the section, or default>-<next_id padded to 5>"`. -/
def Playbook.generate_id (pb : Playbook) (sect : String) : Playbook × String :=
  let pb' := { pb with next_id := pb.next_id + 1 }
  let pfx := rustToLower ((firstWsToken sect).getD "default")
  (pb', pfx ++ "-" ++ pad5 pb'.next_id)

/-- The id `add_bullet` will store under: the supplied one, or the
generated one. -/
def Playbook.effectiveId (pb : Playbook) (sect : String) (bullet_id : Option String) : String :=
  match bullet_id with
  | some i => i
  | none => (pb.generate_id sect).2

/-- `sections.entry(section).or_default().push(bullet_id)`. -/
def sectionsPush (m : List (String × List String)) (k : String) (v : String) :
    List (String × List String) :=
  match alistLookup m k with
  | some l => alistInsert m k (l ++ [v])
  | none => alistInsert m k [v]

/-- `Playbook::add_bullet`.  Returns the new store together with the
stored bullet (the source returns a reference to it). -/
def Playbook.add_bullet (pb : Playbook) (sect content : String)
    (bullet_id : Option String) (metadata : Option (List (String × Nat)))
    (now : Nat) : Playbook × Bullet :=
  let pi : Playbook × String :=
    match bullet_id with
    | some i => (pb, i)
    | none => pb.generate_id sect
  let pb' := pi.1
  let bid := pi.2
  let b := Bullet.new now sect content
  let b := match metadata with
    | some meta => b.apply_metadata meta now
    | none => b
  ({ pb' with
      bullets := alistInsert pb'.bullets bid b
      sections := sectionsPush pb'.sections sect bid }, b)

/-- `Playbook::update_bullet`. -/
def Playbook.update_bullet (pb : Playbook) (bullet_id : String)
    (content : Option String) (metadata : Option (List (String × Nat)))
    (now : Nat) : Except PlaybookError (Playbook × Bullet) :=
  match alistLookup pb.bullets bullet_id with
  | none => Except.error (PlaybookError.BulletNotFound bullet_id)
  | some b =>
    let b := match content with
      | some c => { b with content := c }
      | none => b
    let b := match metadata with
      | some meta => b.apply_metadata meta now
      | none => b
    let b := { b with updated_at := now }
    Except.ok ({ pb with bullets := alistInsert pb.bullets bullet_id b }, b)

/-- `Playbook::tag_bullet`. -/
def Playbook.tag_bullet (pb : Playbook) (bullet_id t : String) (increment : Int)
    (now : Nat) : Except PlaybookError (Playbook × Bullet) :=
  match alistLookup pb.bullets bullet_id with
  | none => Except.error (PlaybookError.BulletNotFound bullet_id)
  | some b =>
    match b.tag t increment now with
    | Except.error e => Except.error e
    | Except.ok b' =>
      Except.ok ({ pb with bullets := alistInsert pb.bullets bullet_id b' }, b')

/-- `Playbook::remove_bullet`.  Returns the new store and the removed
bullet, if any. -/
def Playbook.remove_bullet (pb : Playbook) (bullet_id : String) :
    Playbook × Option Bullet :=
  match alistLookup pb.bullets bullet_id with
  | none => (pb, none)
  | some b =>
    let bullets' := eraseKey pb.bullets bullet_id
    let sections' :=
      match alistLookup pb.sections b.sect with
      | none => pb.sections
      | some ids =>
        let ids' := ids.filter (fun i => i ≠ bullet_id)
        if ids'.isEmpty then eraseKey pb.sections b.sect
        else alistInsert pb.sections b.sect ids'
    ({ pb with bullets := bullets', sections := sections' }, some b)

/-- `Playbook::get_bullet`. -/
def Playbook.get_bullet (pb : Playbook) (bullet_id : String) : Option Bullet :=
  alistLookup pb.bullets bullet_id

/-- The `OperationType` enum (`src/models/delta.rs`). -/
inductive OperationType : Type where
  | ADD
  | UPDATE
  | TAG
  | REMOVE
deriving DecidableEq

/-- The `DeltaOperation` struct.  The `HashMap<String, i32>` metadata is
modelled as its entry list (iteration order of the map is fixed by the
list, a determinization of the map's unspecified order). -/
structure DeltaOperation : Type where
  type_ : OperationType
  sect : String
  content : Option String
  bullet_id : Option String
  metadata : List (String × Int)
deriving DecidableEq

/-- The `DeltaBatch` struct. -/
structure DeltaBatch : Type where
  reasoning : String
  operations : List DeltaOperation
deriving DecidableEq

/-- `metadata.into_iter().map(|(k, v)| (k, v.max(0) as u32)).collect()`:
the non-negative coercion applied to ADD/UPDATE metadata packaged as
`None` when empty. -/
def coerceMeta (metadata : List (String × Int)) : Option (List (String × Nat)) :=
  if metadata.isEmpty then none
  else some (metadata.map (fun kv => (kv.1, (max kv.2 0).toNat)))

/-- The `for (tag, increment) in op.metadata` loop of the TAG branch:
one `tag_bullet` call per entry, stopping at the first error while
keeping the effect of the earlier calls. -/
def Playbook.tagLoop (pb : Playbook) (bid : String) (now : Nat) :
    List (String × Int) → Playbook × Option PlaybookError
  | [] => (pb, none)
  | (t, inc) :: rest =>
    match pb.tag_bullet bid t inc now with
    | Except.ok pr => Playbook.tagLoop pr.1 bid now rest
    | Except.error e => (pb, some e)

/-- `Playbook::_apply_operation`.  Since the source mutates `self` in
place and returns `Result<(), _>`, the model returns the state reached
when the operation returns, together with the error if it failed. -/
def Playbook.applyOperation (pb : Playbook) (op : DeltaOperation) (now : Nat) :
    Playbook × Option PlaybookError :=
  match op.type_ with
  | OperationType.ADD =>
    ((pb.add_bullet op.sect (op.content.getD "") op.bullet_id (coerceMeta op.metadata) now).1,
      none)
  | OperationType.UPDATE =>
    match op.bullet_id with
    | none => (pb, some (PlaybookError.DeltaMissingField "bullet_id required for UPDATE"))
    | some bid =>
      match pb.update_bullet bid op.content (coerceMeta op.metadata) now with
      | Except.ok pr => (pr.1, none)
      | Except.error e => (pb, some e)
  | OperationType.TAG =>
    match op.bullet_id with
    | none => (pb, some (PlaybookError.DeltaMissingField "bullet_id required for TAG"))
    | some bid => pb.tagLoop bid now op.metadata
  | OperationType.REMOVE =>
    match op.bullet_id with
    | none => (pb, some (PlaybookError.DeltaMissingField "bullet_id required for REMOVE"))
    | some bid => ((pb.remove_bullet bid).1, none)

/-- The `for operation in delta.operations` loop of `apply_delta`. -/
def Playbook.applyOps (pb : Playbook) (now : Nat) :
    List DeltaOperation → Playbook × Option PlaybookError
  | [] => (pb, none)
  | op :: rest =>
    match pb.applyOperation op now with
    | (pb', none) => Playbook.applyOps pb' now rest
    | (pb', some e) => (pb', some e)

/-- `Playbook::apply_delta`: fold the operations in list order, stopping
at the first error (mutations up to that point persist, as in the
source's in-place mutation). -/
def Playbook.apply_delta (pb : Playbook) (delta : DeltaBatch) (now : Nat) :
    Playbook × Option PlaybookError :=
  pb.applyOps now delta.operations

/-- Insertion sort step used to model Rust's `Vec::sort` on section names. -/
def insertSorted (s : String) : List String → List String
  | [] => [s]
  | t :: rest => if strLe s t then s :: t :: rest else t :: insertSorted s rest

/-- Model of `sorted_sections.sort()`: the keys in ascending
(byte-lexicographic) order. -/
def sortStrings (l : List String) : List String := l.foldr insertSorted []

/-- The bullet line `- [{id}] {content} (helpful=…, harmful=…, neutral=…)`
emitted by `as_prompt`. -/
def bulletLine (b : Bullet) : String :=
  "- [" ++ b.id ++ "] " ++ b.content ++ " (helpful=" ++ toString b.helpful ++
    ", harmful=" ++ toString b.harmful ++ ", neutral=" ++ toString b.neutral ++ ")"

/-- `Playbook::as_prompt`, translated loop for loop: push `## section`
headings in sorted-key order, then one line per bullet id that resolves
in `bullets`, and join the parts with newlines. -/
def Playbook.as_prompt (pb : Playbook) : String :=
  let sorted := sortStrings (alistKeys pb.sections)
  let parts := sorted.foldl (fun parts s =>
    let parts := parts ++ ["## " ++ s]
    match alistLookup pb.sections s with
    | none => parts
    | some ids =>
      ids.foldl (fun parts bid =>
        match alistLookup pb.bullets bid with
        | none => parts
        | some b => parts ++ [bulletLine b]) parts) ([] : List String)
  String.intercalate "\n" parts

/-- The `Display` implementation for `Playbook`: the fixed
`"Playbook(empty)"` marker when `bullets` is empty, `as_prompt` otherwise. -/
def Playbook.displayString (pb : Playbook) : String :=
  if pb.bullets.isEmpty then "Playbook(empty)" else pb.as_prompt

/-- A value of the stats map: either a number or the nested tags object. -/
inductive StatValue : Type where
  | num (n : Nat)
  | obj (m : List (String × Nat))
deriving DecidableEq

/-- Sum of the `helpful` counters over `bullets.values()`. -/
def Playbook.sumHelpful (pb : Playbook) : Nat :=
  (pb.bullets.map (fun kb => kb.2.helpful)).sum

/-- Sum of the `harmful` counters over `bullets.values()`. -/
def Playbook.sumHarmful (pb : Playbook) : Nat :=
  (pb.bullets.map (fun kb => kb.2.harmful)).sum

/-- Sum of the `neutral` counters over `bullets.values()`. -/
def Playbook.sumNeutral (pb : Playbook) : Nat :=
  (pb.bullets.map (fun kb => kb.2.neutral)).sum

/-- `Playbook::stats`, mirroring the source's `BTreeMap` inserts (so the
resulting entry lists are key-sorted, as a `BTreeMap` iterates). -/
def Playbook.stats (pb : Playbook) : List (String × StatValue) :=
  let tags : List (String × Nat) :=
    btreeInsert (btreeInsert (btreeInsert [] "helpful" pb.sumHelpful)
      "harmful" pb.sumHarmful) "neutral" pb.sumNeutral
  let stats := btreeInsert ([] : List (String × StatValue)) "sections"
    (StatValue.num pb.sections.length)
  let stats := btreeInsert stats "bullets" (StatValue.num pb.bullets.length)
  btreeInsert stats "tags" (StatValue.obj tags)

/-- A `serde_json::Value` tree (numbers restricted to integers, which is
all the parsing paths under verification inspect). -/
inductive Json : Type where
  | null
  | bool (b : Bool)
  | num (n : Int)
  | str (s : String)
  | arr (xs : List Json)
  | obj (fields : List (String × Json))

/-- `Value::index` with a string key (`payload["k"]`): `Null` when the
value is not an object or the key is absent. -/
def Json.index (j : Json) (k : String) : Json :=
  match j with
  | Json.obj fields => (alistLookup fields k).getD Json.null
  | _ => Json.null

/-- `Value::as_str`. -/
def Json.as_str (j : Json) : Option String :=
  match j with
  | Json.str s => some s
  | _ => none

/-- `Value::as_i64` (integer in the `i64` range). -/
def Json.as_i64 (j : Json) : Option Int :=
  match j with
  | Json.num n => if -9223372036854775808 ≤ n ∧ n ≤ 9223372036854775807 then some n else none
  | _ => none

/-- `Value::as_array`. -/
def Json.as_array (j : Json) : Option (List Json) :=
  match j with
  | Json.arr xs => some xs
  | _ => none

/-- `Value::as_object` (as the entry list). -/
def Json.as_object (j : Json) : Option (List (String × Json)) :=
  match j with
  | Json.obj fields => some fields
  | _ => none

/-- Is the value an object? -/
def Json.isObj (j : Json) : Bool :=
  match j with
  | Json.obj _ => true
  | _ => false

/-- The two parse errors `DeltaOperation::from_json` can produce
(`Box<dyn Error>` strings in the source): `"Invalid type"` when the
`type` field is absent or not a string, and
`"Invalid operation type: …"` otherwise. -/
inductive DeltaParseError : Type where
  | invalidType
  | invalidOperationType (s : String)
deriving DecidableEq

/-- Does a parse result carry `InvalidOperationType`? -/
def isInvalidOpType {α : Type} (r : Except DeltaParseError α) : Prop :=
  match r with
  | Except.error (DeltaParseError.invalidOperationType _) => True
  | _ => False

/-- The uppercased-kind-string dispatch of `DeltaOperation::from_json`. -/
def parseOpType (s : String) : Option OperationType :=
  if s = "ADD" then some OperationType.ADD
  else if s = "UPDATE" then some OperationType.UPDATE
  else if s = "TAG" then some OperationType.TAG
  else if s = "REMOVE" then some OperationType.REMOVE
  else none

/-- The metadata loop body: insert `val as i32` when the value is an
integer, skip it otherwise (`HashMap::insert` replaces duplicates). -/
def metaStep (acc : List (String × Int)) (kv : String × Json) : List (String × Int) :=
  match kv.2.as_i64 with
  | some v => alistInsert acc kv.1 (toI32 v)
  | none => acc

/-- `DeltaOperation::from_json`. -/
def DeltaOperation.from_json (payload : Json) : Except DeltaParseError DeltaOperation :=
  match (payload.index "type").as_str with
  | none => Except.error DeltaParseError.invalidType
  | some t =>
    let ts := rustToUpper t
    match parseOpType ts with
    | none => Except.error (DeltaParseError.invalidOperationType ts)
    | some ot =>
      let metadata : List (String × Int) :=
        match (payload.index "metadata").as_object with
        | none => []
        | some fields =>
          if ot = OperationType.TAG then
            fields.foldl (fun acc kv =>
              if kv.1 = "helpful" ∨ kv.1 = "harmful" ∨ kv.1 = "neutral" then metaStep acc kv
              else acc) []
          else
            fields.foldl metaStep []
      Except.ok
        { type_ := ot
          sect := ((payload.index "section").as_str).getD ""
          content := (payload.index "content").as_str
          bullet_id := (payload.index "bullet_id").as_str
          metadata := metadata }

/-- The `for item in ops_array` loop of `DeltaBatch::from_json`: object
items are parsed (the first failure aborts the whole parse via `?`),
non-object items are skipped. -/
def parseOpsItems : List Json → Except DeltaParseError (List DeltaOperation)
  | [] => Except.ok []
  | item :: rest =>
    match item with
    | Json.obj fields =>
      match DeltaOperation.from_json (Json.obj fields) with
      | Except.error e => Except.error e
      | Except.ok op =>
        match parseOpsItems rest with
        | Except.error e => Except.error e
        | Except.ok ops => Except.ok (op :: ops)
    | _ => parseOpsItems rest

/-- `DeltaBatch::from_json`. -/
def DeltaBatch.from_json (payload : Json) : Except DeltaParseError DeltaBatch :=
  match parseOpsItems (((payload.index "operations").as_array).getD []) with
  | Except.error e => Except.error e
  | Except.ok ops =>
    Except.ok
      { reasoning := ((payload.index "reasoning").as_str).getD ""
        operations := ops }

/-- Modelled from the spec: the serde-derived JSON encoding of a
`Bullet` is the object of its fields (timestamps rendered as abstract
numeric instants); the derive itself is library code, not in `src/`. -/
def Bullet.to_json (b : Bullet) : Json :=
  Json.obj
    [("id", Json.str b.id),
     ("section", Json.str b.sect),
     ("content", Json.str b.content),
     ("helpful", Json.num (b.helpful : Int)),
     ("harmful", Json.num (b.harmful : Int)),
     ("neutral", Json.num (b.neutral : Int)),
     ("created_at", Json.num (b.created_at : Int)),
     ("updated_at", Json.num (b.updated_at : Int))]

/-- Read a required string field of an object. -/
def getStrField (fields : List (String × Json)) (k : String) : Except String String :=
  match alistLookup fields k with
  | some (Json.str s) => Except.ok s
  | _ => Except.error k

/-- Read a required non-negative integer field of an object. -/
def getNatField (fields : List (String × Json)) (k : String) : Except String Nat :=
  match alistLookup fields k with
  | some (Json.num (Int.ofNat n)) => Except.ok n
  | _ => Except.error k

/-- Modelled from the spec: the serde-derived decoding of a `Bullet`
(field-by-field, failing on a missing or ill-typed field). -/
def Bullet.from_json (j : Json) : Except String Bullet :=
  match j with
  | Json.obj fields =>
    match getStrField fields "id", getStrField fields "section",
        getStrField fields "content", getNatField fields "helpful",
        getNatField fields "harmful", getNatField fields "neutral",
        getNatField fields "created_at", getNatField fields "updated_at" with
    | Except.ok id, Except.ok sect, Except.ok content, Except.ok h,
        Except.ok m, Except.ok n, Except.ok c, Except.ok u =>
      Except.ok
        { id := id, sect := sect, content := content, helpful := h,
          harmful := m, neutral := n, created_at := c, updated_at := u }
    | _, _, _, _, _, _, _, _ => Except.error "bullet"
  | _ => Except.error "bullet"

/-- Decode each value of the `bullets` object in order. -/
def parseBulletsObj : List (String × Json) → Except String (List (String × Bullet))
  | [] => Except.ok []
  | (k, v) :: rest =>
    match Bullet.from_json v, parseBulletsObj rest with
    | Except.ok b, Except.ok bs => Except.ok ((k, b) :: bs)
    | _, _ => Except.error "bullets"

/-- Decode a JSON array of strings. -/
def parseStringArr : List Json → Except String (List String)
  | [] => Except.ok []
  | Json.str s :: rest =>
    match parseStringArr rest with
    | Except.ok ss => Except.ok (s :: ss)
    | Except.error e => Except.error e
  | _ :: _ => Except.error "ids"

/-- Decode each value of the `sections` object in order. -/
def parseSectionsObj : List (String × Json) → Except String (List (String × List String))
  | [] => Except.ok []
  | (k, Json.arr vs) :: rest =>
    match parseStringArr vs, parseSectionsObj rest with
    | Except.ok ids, Except.ok ss => Except.ok ((k, ids) :: ss)
    | _, _ => Except.error "sections"
  | _ :: _ => Except.error "sections"

/-- Modelled from the spec (§6 persisted format): `Playbook::to_json`
maps the store to the whole-store JSON object with keys `bullets`,
`sections` and `next_id`; the field mapping itself is serde-derived
library code, not in `src/`. -/
def Playbook.to_json (pb : Playbook) : Json :=
  Json.obj
    [("bullets", Json.obj (pb.bullets.map (fun kb => (kb.1, kb.2.to_json)))),
     ("sections", Json.obj (pb.sections.map (fun ks => (ks.1, Json.arr (ks.2.map Json.str))))),
     ("next_id", Json.num (pb.next_id : Int))]

/-- Modelled from the spec (§6 persisted format): `Playbook::from_json`
decodes the three top-level keys back into a store. -/
def Playbook.from_json (j : Json) : Except String Playbook :=
  match j with
  | Json.obj fields =>
    match alistLookup fields "bullets", alistLookup fields "sections",
        alistLookup fields "next_id" with
    | some (Json.obj bf), some (Json.obj sf), some (Json.num (Int.ofNat nid)) =>
      match parseBulletsObj bf, parseSectionsObj sf with
      | Except.ok bs, Except.ok ss =>
        Except.ok { bullets := bs, sections := ss, next_id := nid }
      | _, _ => Except.error "playbook"
    | _, _, _ => Except.error "playbook"
  | _ => Except.error "playbook"

/-! ### The store invariants of §3 -/

/-- The §3 store invariants, phrased over the two index structures:
both maps have duplicate-free keys; every id listed under a section
resolves in `bullets` to a bullet whose `section` field is that section
name; every bullet's id occurs exactly once in its own section's
sequence; no section maps to an empty sequence. -/
structure StoreInv (bullets : List (String × Bullet))
    (sections : List (String × List String)) : Prop where
  nodupB : (alistKeys bullets).Nodup
  nodupS : (alistKeys sections).Nodup
  indexed : ∀ s ids, (s, ids) ∈ sections → ∀ id ∈ ids,
    ∃ b, alistLookup bullets id = some b ∧ b.sect = s
  present : ∀ id b, (id, b) ∈ bullets →
    ∃ ids, alistLookup sections b.sect = some ids ∧ ids.count id = 1
  nonNil : ∀ s ids, (s, ids) ∈ sections → ids ≠ []

/-- The §3 store invariants of a playbook. -/
def PlaybookInv (pb : Playbook) : Prop := StoreInv pb.bullets pb.sections

/-- The reachable stores, restricted as §9 advises: an `add_bullet` step
is only taken when the effective id (supplied or generated) is fresh. -/
inductive ReachF : Playbook → Prop where
  | empty : ReachF Playbook.new
  | add (pb : Playbook) (sect content : String) (bid? : Option String)
      (meta : Option (List (String × Nat))) (now : Nat) : ReachF pb →
      pb.effectiveId sect bid? ∉ alistKeys pb.bullets →
      ReachF (pb.add_bullet sect content bid? meta now).1
  | update (pb pb' : Playbook) (bid : String) (c : Option String)
      (meta : Option (List (String × Nat))) (now : Nat) (b : Bullet) : ReachF pb →
      pb.update_bullet bid c meta now = Except.ok (pb', b) → ReachF pb'
  | tagb (pb pb' : Playbook) (bid t : String) (inc : Int) (now : Nat) (b : Bullet) :
      ReachF pb → pb.tag_bullet bid t inc now = Except.ok (pb', b) → ReachF pb'
  | remove (pb : Playbook) (bid : String) : ReachF pb → ReachF (pb.remove_bullet bid).1

/-- Unrestricted reachability through the CRUD operations and delta
application (any arguments, including colliding explicit ids). -/
inductive Reach : Playbook → Prop where
  | empty : Reach Playbook.new
  | add (pb : Playbook) (sect content : String) (bid? : Option String)
      (meta : Option (List (String × Nat))) (now : Nat) : Reach pb →
      Reach (pb.add_bullet sect content bid? meta now).1
  | update (pb pb' : Playbook) (bid : String) (c : Option String)
      (meta : Option (List (String × Nat))) (now : Nat) (b : Bullet) : Reach pb →
      pb.update_bullet bid c meta now = Except.ok (pb', b) → Reach pb'
  | tagb (pb pb' : Playbook) (bid t : String) (inc : Int) (now : Nat) (b : Bullet) :
      Reach pb → pb.tag_bullet bid t inc now = Except.ok (pb', b) → Reach pb'
  | remove (pb : Playbook) (bid : String) : Reach pb → Reach (pb.remove_bullet bid).1
  | delta (pb : Playbook) (d : DeltaBatch) (now : Nat) : Reach pb →
      Reach (pb.apply_delta d now).1

/-! ### Renderer: `as_prompt` against the spec's wording -/

/-- §4.5 worded directly: sections in sorted-name order, each a heading
`## name` followed by one `bulletLine` per id of the section's stored
sequence that resolves in `bullets`, all joined with newlines. -/
def promptSpec (pb : Playbook) : String :=
  String.intercalate "\n" ((sortStrings (alistKeys pb.sections)).flatMap (fun s =>
    ("## " ++ s) :: (((alistLookup pb.sections s).getD []).filterMap (fun bid =>
      (alistLookup pb.bullets bid).map bulletLine))))

/-- The colliding-id store of the C2 counterexample: id "x" added under
section "A", then again under section "B". -/
def pbStale : Playbook :=
  ((Playbook.new.add_bullet "A" "c1" (some "x") none 0).1.add_bullet "B" "c2" (some "x")
    none 1).1

/-- A concrete ADD delta operation. -/
def opAddRetry : DeltaOperation :=
  { type_ := OperationType.ADD, sect := "Retry", content := some "Use backoff",
    bullet_id := none, metadata := [] }

/-- An UPDATE delta operation missing its `bullet_id`. -/
def opBadUpdate : DeltaOperation :=
  { type_ := OperationType.UPDATE, sect := "", content := none, bullet_id := none,
    metadata := [] }

/-- A bullet whose `helpful` counter sits at `u32::MAX`. -/
def bMax : Bullet :=
  { id := "b", sect := "S", content := "c", helpful := 4294967295, harmful := 0,
    neutral := 0, created_at := 0, updated_at := 0 }

/-- A batch payload whose operations array starts with a non-object entry
followed by a well-formed ADD object. -/
def c5Payload : Json :=
  Json.obj [("reasoning", Json.str "r"),
    ("operations", Json.arr [Json.str "junk",
      Json.obj [("type", Json.str "add"), ("section", Json.str "S")]])]

/-- A one-bullet store with counters 2, 1, 3. -/
def pbC7 : Playbook :=
  (Playbook.new.add_bullet "S" "c" (some "x")
    (some [("helpful", 2), ("harmful", 1), ("neutral", 3)]) 0).1

/-- A one-bullet store for the empty-update witness. -/
def pbW : Playbook := (Playbook.new.add_bullet "S" "c" (some "x") none 3).1

/-- The operation the well-formed object of `c5Payload` parses to. -/
def c5ParsedOp : DeltaOperation :=
  { type_ := OperationType.ADD, sect := "S", content := none,
    bullet_id := none, metadata := [] }

/-! ### Association-list lemmas -/

theorem alistLookup_cons {α : Type} (kv : String × α) (rest : List (String × α)) (k : String) :
    alistLookup (kv :: rest) k = if kv.1 = k then some kv.2 else alistLookup rest k := rfl

theorem eraseKey_cons {α : Type} (kv : String × α) (rest : List (String × α)) (k : String) :
    eraseKey (kv :: rest) k =
      if kv.1 = k then eraseKey rest k else kv :: eraseKey rest k := by
  by_cases h : kv.1 = k <;> simp [eraseKey, List.filter_cons, h]

theorem lookup_eraseKey_self {α : Type} (m : List (String × α)) (k : String) :
    alistLookup (eraseKey m k) k = none := by
  induction m with
  | nil => rfl
  | cons kv rest ih =>
    rw [eraseKey_cons]
    by_cases h : kv.1 = k
    · simpa [h] using ih
    · simpa [alistLookup_cons, h] using ih

theorem lookup_eraseKey_ne {α : Type} (m : List (String × α)) {k' k : String}
    (h : k' ≠ k) : alistLookup (eraseKey m k') k = alistLookup m k := by
  induction m with
  | nil => rfl
  | cons kv rest ih =>
    rw [eraseKey_cons]
    by_cases h1 : kv.1 = k'
    · have h2 : kv.1 ≠ k := by rw [h1]; exact h
      simp [h1, alistLookup_cons, h2, ih, h]
    · simp [h1, alistLookup_cons, ih]

theorem lookup_insert_self {α : Type} (m : List (String × α)) (k : String) (v : α) :
    alistLookup (alistInsert m k v) k = some v := by
  simp [alistInsert, alistLookup]

theorem lookup_insert_ne {α : Type} (m : List (String × α)) {k' k : String} (v : α)
    (h : k' ≠ k) : alistLookup (alistInsert m k' v) k = alistLookup m k := by
  simp [alistInsert, alistLookup, h, lookup_eraseKey_ne m h]

theorem mem_of_lookup_eq_some {α : Type} {m : List (String × α)} {k : String} {v : α}
    (h : alistLookup m k = some v) : (k, v) ∈ m := by
  induction m with
  | nil => simp [alistLookup] at h
  | cons kv rest ih =>
    rcases kv with ⟨a, b⟩
    by_cases h1 : a = k
    · have hb : b = v := by simpa [alistLookup, h1] using h
      subst h1; subst hb
      exact List.mem_cons_self _ _
    · have h2 : alistLookup rest k = some v := by simpa [alistLookup, h1] using h
      exact List.mem_cons_of_mem _ (ih h2)

theorem lookup_isSome_of_mem_keys {α : Type} {m : List (String × α)} {k : String}
    (h : k ∈ alistKeys m) : ∃ v, alistLookup m k = some v := by
  induction m with
  | nil => simp [alistKeys] at h
  | cons kv rest ih =>
    by_cases h1 : kv.1 = k
    · exact ⟨kv.2, by simp [alistLookup, h1]⟩
    · have : k ∈ alistKeys rest := by
        rcases (by simpa [alistKeys] using h : k = kv.1 ∨ k ∈ alistKeys rest) with h2 | h2
        · exact absurd h2.symm h1
        · exact h2
      simpa [alistLookup, h1] using ih this

theorem mem_keys_of_lookup {α : Type} {m : List (String × α)} {k : String} {v : α}
    (h : alistLookup m k = some v) : k ∈ alistKeys m := by
  have := mem_of_lookup_eq_some h
  exact List.mem_map.mpr ⟨(k, v), this, rfl⟩

theorem mem_keys_of_mem {α : Type} {m : List (String × α)} {k : String} {v : α}
    (h : (k, v) ∈ m) : k ∈ alistKeys m :=
  List.mem_map.mpr ⟨(k, v), h, rfl⟩

theorem lookup_eq_some_of_mem {α : Type} {m : List (String × α)} {k : String} {v : α}
    (hnd : (alistKeys m).Nodup) (h : (k, v) ∈ m) : alistLookup m k = some v := by
  induction m with
  | nil => simp at h
  | cons kv rest ih =>
    have hnd2 : kv.1 ∉ alistKeys rest ∧ (alistKeys rest).Nodup :=
      List.nodup_cons.mp (show (kv.1 :: alistKeys rest).Nodup from hnd)
    rcases List.mem_cons.mp h with h | h
    · simp [alistLookup_cons, ← h]
    · have hk : k ∈ alistKeys rest := mem_keys_of_mem h
      have h1 : kv.1 ≠ k := fun he => hnd2.1 (he ▸ hk)
      simpa [alistLookup_cons, h1] using ih hnd2.2 h

theorem mem_eraseKey_iff {α : Type} {m : List (String × α)} {k k' : String} {v : α} :
    (k', v) ∈ eraseKey m k ↔ (k', v) ∈ m ∧ k' ≠ k := by
  simp [eraseKey, List.mem_filter]

theorem mem_insert_iff {α : Type} {m : List (String × α)} {k k' : String} {v v' : α} :
    (k', v') ∈ alistInsert m k v ↔ (k' = k ∧ v' = v) ∨ ((k', v') ∈ m ∧ k' ≠ k) := by
  simp only [alistInsert, List.mem_cons, mem_eraseKey_iff, Prod.mk.injEq]

theorem not_mem_keys_eraseKey {α : Type} (m : List (String × α)) (k : String) :
    k ∉ alistKeys (eraseKey m k) := by
  intro h
  rcases lookup_isSome_of_mem_keys h with ⟨v, hv⟩
  rw [lookup_eraseKey_self] at hv
  exact Option.noConfusion hv

theorem nodup_keys_eraseKey {α : Type} {m : List (String × α)} (k : String)
    (hnd : (alistKeys m).Nodup) : (alistKeys (eraseKey m k)).Nodup :=
  ((List.filter_sublist m).map Prod.fst).nodup hnd

theorem nodup_keys_insert {α : Type} {m : List (String × α)} (k : String) (v : α)
    (hnd : (alistKeys m).Nodup) : (alistKeys (alistInsert m k v)).Nodup := by
  have : alistKeys (alistInsert m k v) = k :: alistKeys (eraseKey m k) := rfl
  rw [this, List.nodup_cons]
  exact ⟨not_mem_keys_eraseKey m k, nodup_keys_eraseKey k hnd⟩

theorem sectionsPush_eq (m : List (String × List String)) (k : String) (v : String) :
    sectionsPush m k v = alistInsert m k (((alistLookup m k).getD []) ++ [v]) := by
  unfold sectionsPush
  cases h : alistLookup m k <;> simp [h]

theorem count_filter_ne {l : List String} {x y : String} (h : y ≠ x) :
    (l.filter (fun i => i ≠ x)).count y = l.count y :=
  List.count_filter (by simpa using h)

/-- The ids listed under any section key are keys of `bullets`. -/
theorem listed_mem_keys {bullets : List (String × Bullet)}
    {sections : List (String × List String)} (hInv : StoreInv bullets sections)
    (sect : String) :
    ∀ id ∈ (alistLookup sections sect).getD [], id ∈ alistKeys bullets := by
  intro id hid
  cases hlk : alistLookup sections sect with
  | none => rw [hlk] at hid; simp at hid
  | some l =>
    rw [hlk] at hid
    rcases hInv.indexed sect l (mem_of_lookup_eq_some hlk) id hid with ⟨b0, hb0, _⟩
    exact mem_keys_of_lookup hb0

theorem count_single_ne {x y : String} (h : y ≠ x) : List.count y [x] = 0 := by
  simp [List.count_cons]
  exact fun he => h he.symm

/-- Inserting a fresh bullet id and appending it to its section's
sequence preserves the store invariants. -/
theorem storeInv_add {bullets : List (String × Bullet)}
    {sections : List (String × List String)} {bid sect : String} {b : Bullet}
    (hb : b.sect = sect) (hInv : StoreInv bullets sections)
    (hfresh : bid ∉ alistKeys bullets) :
    StoreInv (alistInsert bullets bid b) (sectionsPush sections sect bid) := by
  rw [sectionsPush_eq]
  refine ⟨nodup_keys_insert _ _ hInv.nodupB, nodup_keys_insert _ _ hInv.nodupS, ?_, ?_, ?_⟩
  · intro s ids hmem id hid
    rcases mem_insert_iff.mp hmem with ⟨hs, hids⟩ | ⟨hmem', hs⟩
    · rw [hids] at hid
      rcases List.mem_append.mp hid with hid2 | hid2
      · have hidk : id ∈ alistKeys bullets := listed_mem_keys hInv sect id hid2
        have hne : bid ≠ id := fun he => hfresh (he ▸ hidk)
        cases hlk : alistLookup sections sect with
        | none => rw [hlk] at hid2; simp at hid2
        | some l =>
          rw [hlk] at hid2
          rcases hInv.indexed sect l (mem_of_lookup_eq_some hlk) id hid2 with ⟨b0, hb0, hbs⟩
          exact ⟨b0, by rw [lookup_insert_ne _ _ hne]; exact hb0, by rw [hbs, hs]⟩
      · have hidbid : id = bid := by simpa using hid2
        refine ⟨b, ?_, by rw [hb, hs]⟩
        rw [hidbid]
        exact lookup_insert_self _ _ _
    · rcases hInv.indexed s ids hmem' id hid with ⟨b0, hb0, hbs⟩
      have hidk : id ∈ alistKeys bullets := mem_keys_of_lookup hb0
      have hne : bid ≠ id := fun he => hfresh (he ▸ hidk)
      exact ⟨b0, by rw [lookup_insert_ne _ _ hne]; exact hb0, hbs⟩
  · intro id b' hmem
    rcases mem_insert_iff.mp hmem with ⟨hid, hbv⟩ | ⟨hmem', hid⟩
    · refine ⟨(alistLookup sections sect).getD [] ++ [bid], ?_, ?_⟩
      · rw [hbv, hb]
        exact lookup_insert_self _ _ _
      · have h0 : List.count id ((alistLookup sections sect).getD []) = 0 := by
          rw [List.count_eq_zero]
          intro hc
          exact hfresh (hid ▸ listed_mem_keys hInv sect id hc)
        rw [List.count_append, h0, hid]
        simp
    · rcases hInv.present id b' hmem' with ⟨ids0, hids0, hcount⟩
      by_cases hs : b'.sect = sect
      · have hlk : alistLookup sections sect = some ids0 := by rw [← hs]; exact hids0
        refine ⟨(alistLookup sections sect).getD [] ++ [bid], ?_, ?_⟩
        · rw [hs]
          exact lookup_insert_self _ _ _
        · have hidk : id ∈ alistKeys bullets := mem_keys_of_mem hmem'
          have hne : id ≠ bid := fun he => hfresh (he ▸ hidk)
          rw [List.count_append, hlk, count_single_ne hne]
          show List.count id ids0 + 0 = 1
          rw [hcount]
      · exact ⟨ids0, by rw [lookup_insert_ne _ _ (fun he => hs he.symm)]; exact hids0, hcount⟩
  · intro s ids hmem
    rcases mem_insert_iff.mp hmem with ⟨_, hids⟩ | ⟨hmem', _⟩
    · rw [hids]; simp
    · exact hInv.nonNil s ids hmem'

/-- Replacing a bullet in place with one owned by the same section
preserves the store invariants. -/
theorem storeInv_replace {bullets : List (String × Bullet)}
    {sections : List (String × List String)} {bid : String} {b b' : Bullet}
    (hInv : StoreInv bullets sections)
    (hlk : alistLookup bullets bid = some b) (hsect : b'.sect = b.sect) :
    StoreInv (alistInsert bullets bid b') sections := by
  refine ⟨nodup_keys_insert _ _ hInv.nodupB, hInv.nodupS, ?_, ?_, hInv.nonNil⟩
  · intro s ids hmem id hid
    rcases hInv.indexed s ids hmem id hid with ⟨b0, hb0, hbs⟩
    by_cases he : bid = id
    · subst he
      have : b0 = b := by rw [hlk] at hb0; exact (Option.some.inj hb0).symm
      exact ⟨b', lookup_insert_self _ _ _, by rw [hsect, ← this, hbs]⟩
    · exact ⟨b0, by rw [lookup_insert_ne _ _ he]; exact hb0, hbs⟩
  · intro id b'' hmem
    rcases mem_insert_iff.mp hmem with ⟨hid, hbv⟩ | ⟨hmem', _⟩
    · rcases hInv.present bid b (mem_of_lookup_eq_some hlk) with ⟨ids0, hids0, hcount⟩
      refine ⟨ids0, ?_, ?_⟩
      · rw [hbv, hsect]
        exact hids0
      · rw [hid]
        exact hcount
    · exact hInv.present id b'' hmem'

/-- Removing a bullet and detaching it from its section's sequence
preserves the store invariants. -/
theorem storeInv_remove {pb : Playbook} (hInv : PlaybookInv pb) (bid : String) :
    PlaybookInv (pb.remove_bullet bid).1 := by
  unfold Playbook.remove_bullet
  split
  · exact hInv
  next b hlk =>
    rcases hInv.present bid b (mem_of_lookup_eq_some hlk) with ⟨ids, hids, hcount⟩
    have hBkeep : ∀ {id : String}, id ≠ bid →
        alistLookup (eraseKey pb.bullets bid) id = alistLookup pb.bullets id :=
      fun hne => lookup_eraseKey_ne _ (fun he => hne he.symm)
    show StoreInv (eraseKey pb.bullets bid) _
    split
    next hnone => rw [hnone] at hids; exact Option.noConfusion hids
    next l hlkS =>
    have hleq : ids = l := by rw [hlkS] at hids; exact (Option.some.inj hids).symm
    subst hleq
    have hmem_ids' : ∀ id, id ∈ ids.filter (fun i => i ≠ bid) ↔ id ∈ ids ∧ id ≠ bid := by
      intro id; simp [List.mem_filter]
    have hcount' : ∀ id, id ≠ bid →
        (ids.filter (fun i => i ≠ bid)).count id = ids.count id := by
      intro id hne; exact count_filter_ne hne
    show StoreInv (eraseKey pb.bullets bid)
      (if (ids.filter (fun i => i ≠ bid)).isEmpty then eraseKey pb.sections b.sect
       else alistInsert pb.sections b.sect (ids.filter (fun i => i ≠ bid)))
    split
    next hE =>
      have hids'nil : ids.filter (fun i => i ≠ bid) = [] := by simpa using hE
      refine ⟨nodup_keys_eraseKey _ hInv.nodupB, nodup_keys_eraseKey _ hInv.nodupS, ?_, ?_, ?_⟩
      · intro s ids2 hmem id hid
        rcases mem_eraseKey_iff.mp hmem with ⟨hmem2, hs⟩
        rcases hInv.indexed s ids2 hmem2 id hid with ⟨b0, hb0, hbs⟩
        have hne : id ≠ bid := by
          intro he
          rw [he, hlk] at hb0
          exact hs (by rw [← hbs, Option.some.inj hb0])
        exact ⟨b0, by rw [hBkeep hne]; exact hb0, hbs⟩
      · intro id b2 hmem
        rcases mem_eraseKey_iff.mp hmem with ⟨hmem2, hne⟩
        rcases hInv.present id b2 hmem2 with ⟨ids0, hids0, hcount0⟩
        by_cases hs : b2.sect = b.sect
        · exfalso
          have hids0eq : ids0 = ids := by
            rw [hs, hlkS] at hids0; exact (Option.some.inj hids0).symm
          have hidmem : id ∈ ids := by
            rw [← hids0eq]
            exact List.count_pos_iff.mp (by rw [hcount0]; norm_num)
          have hmem3 : id ∈ ids.filter (fun i => i ≠ bid) := (hmem_ids' id).mpr ⟨hidmem, hne⟩
          rw [hids'nil] at hmem3
          simp at hmem3
        · exact ⟨ids0, by rw [lookup_eraseKey_ne _ (fun he => hs he.symm)]; exact hids0,
            hcount0⟩
      · intro s ids2 hmem
        exact hInv.nonNil s ids2 (mem_eraseKey_iff.mp hmem).1
    next hE =>
      refine ⟨nodup_keys_eraseKey _ hInv.nodupB, nodup_keys_insert _ _ hInv.nodupS, ?_, ?_, ?_⟩
      · intro s ids2 hmem id hid
        rcases mem_insert_iff.mp hmem with ⟨hs, hids2⟩ | ⟨hmem2, hs⟩
        · rw [hids2] at hid
          rcases (hmem_ids' id).mp hid with ⟨hidids, hne⟩
          rcases hInv.indexed b.sect ids (mem_of_lookup_eq_some hlkS) id hidids with
            ⟨b0, hb0, hbs⟩
          exact ⟨b0, by rw [hBkeep hne]; exact hb0, by rw [hbs, hs]⟩
        · rcases hInv.indexed s ids2 hmem2 id hid with ⟨b0, hb0, hbs⟩
          have hne : id ≠ bid := by
            intro he
            rw [he, hlk] at hb0
            exact hs (by rw [← hbs, Option.some.inj hb0])
          exact ⟨b0, by rw [hBkeep hne]; exact hb0, hbs⟩
      · intro id b2 hmem
        rcases mem_eraseKey_iff.mp hmem with ⟨hmem2, hne⟩
        rcases hInv.present id b2 hmem2 with ⟨ids0, hids0, hcount0⟩
        by_cases hs : b2.sect = b.sect
        · have hids0eq : ids0 = ids := by
            rw [hs, hlkS] at hids0; exact (Option.some.inj hids0).symm
          refine ⟨ids.filter (fun i => i ≠ bid), by rw [hs]; exact lookup_insert_self _ _ _, ?_⟩
          rw [hcount' id hne, ← hids0eq, hcount0]
        · exact ⟨ids0, by rw [lookup_insert_ne _ _ (fun he => hs he.symm)]; exact hids0,
            hcount0⟩
      · intro s ids2 hmem
        rcases mem_insert_iff.mp hmem with ⟨_, hids2⟩ | ⟨hmem2, _⟩
        · rw [hids2]
          intro hnil
          rw [hnil] at hE
          exact hE rfl
        · exact hInv.nonNil s ids2 hmem2

/-! ### Field-preservation and inversion lemmas -/

theorem apply_metadata_sect (b : Bullet) (meta : List (String × Nat)) (now : Nat) :
    (b.apply_metadata meta now).sect = b.sect := by
  unfold Bullet.apply_metadata
  show (List.foldl _ b meta).sect = b.sect
  induction meta generalizing b with
  | nil => rfl
  | cons kv rest ih =>
    rw [List.foldl_cons, ih]
    by_cases h1 : kv.1 = "helpful"
    · simp [h1]
    · by_cases h2 : kv.1 = "harmful"
      · simp [h1, h2]
      · by_cases h3 : kv.1 = "neutral" <;> simp [h1, h2, h3]

theorem tag_ok_sect {b b' : Bullet} {t : String} {inc : Int} {now : Nat}
    (h : b.tag t inc now = Except.ok b') : b'.sect = b.sect := by
  unfold Bullet.tag at h
  split at h
  · rw [← Except.ok.inj h]
  · split at h
    · rw [← Except.ok.inj h]
    · split at h
      · rw [← Except.ok.inj h]
      · exact Except.noConfusion h

theorem update_bullet_ok_shape {pb : Playbook} {bid : String} {c : Option String}
    {meta : Option (List (String × Nat))} {now : Nat} {pb' : Playbook} {b' : Bullet}
    (h : pb.update_bullet bid c meta now = Except.ok (pb', b')) :
    ∃ b, alistLookup pb.bullets bid = some b ∧ b'.sect = b.sect ∧
      pb'.bullets = alistInsert pb.bullets bid b' ∧ pb'.sections = pb.sections ∧
      pb'.next_id = pb.next_id := by
  unfold Playbook.update_bullet at h
  split at h
  · exact Except.noConfusion h
  next b hlk =>
    have hinj := Except.ok.inj h
    have hfst := congrArg Prod.fst hinj
    have hsnd := congrArg Prod.snd hinj
    simp only at hfst hsnd
    refine ⟨b, hlk, ?_, ?_, ?_, ?_⟩
    · rw [← hsnd]
      cases c with
      | none =>
        cases meta with
        | none => rfl
        | some m => exact apply_metadata_sect b m now
      | some cc =>
        cases meta with
        | none => rfl
        | some m => exact (apply_metadata_sect { b with content := cc } m now).trans rfl
    · rw [← hfst, ← hsnd]
    · rw [← hfst]
    · rw [← hfst]

theorem tag_bullet_ok_shape {pb : Playbook} {bid t : String} {inc : Int} {now : Nat}
    {pb' : Playbook} {b' : Bullet}
    (h : pb.tag_bullet bid t inc now = Except.ok (pb', b')) :
    ∃ b, alistLookup pb.bullets bid = some b ∧ b.tag t inc now = Except.ok b' ∧
      pb'.bullets = alistInsert pb.bullets bid b' ∧ pb'.sections = pb.sections ∧
      pb'.next_id = pb.next_id := by
  unfold Playbook.tag_bullet at h
  split at h
  · exact Except.noConfusion h
  next b hlk =>
    split at h
    · exact Except.noConfusion h
    next b2 htag =>
      have hinj := Except.ok.inj h
      have hfst := congrArg Prod.fst hinj
      have hsnd := congrArg Prod.snd hinj
      simp only at hfst hsnd
      refine ⟨b, hlk, ?_, ?_, ?_, ?_⟩
      · rw [← hsnd]; exact htag
      · rw [← hfst, ← hsnd]
      · rw [← hfst]
      · rw [← hfst]

/-- The bullet value `add_bullet` constructs is owned by `sect`. -/
theorem add_bullet_stored_sect (pb : Playbook) (sect content : String)
    (bid? : Option String) (meta : Option (List (String × Nat))) (now : Nat) :
    (pb.add_bullet sect content bid? meta now).2.sect = sect := by
  cases meta with
  | none => cases bid? <;> rfl
  | some m =>
    cases bid? with
    | none =>
      show ((Bullet.new now sect content).apply_metadata m now).sect = sect
      rw [apply_metadata_sect]
      rfl
    | some i =>
      show ((Bullet.new now sect content).apply_metadata m now).sect = sect
      rw [apply_metadata_sect]
      rfl

/-- `add_bullet` preserves the invariants when the effective id is fresh. -/
theorem add_bullet_inv {pb : Playbook} (hInv : PlaybookInv pb) (sect content : String)
    (bid? : Option String) (meta : Option (List (String × Nat))) (now : Nat)
    (hfresh : pb.effectiveId sect bid? ∉ alistKeys pb.bullets) :
    PlaybookInv (pb.add_bullet sect content bid? meta now).1 := by
  have hsect := add_bullet_stored_sect pb sect content bid? meta now
  cases bid? with
  | some i =>
    show StoreInv (alistInsert pb.bullets i _) (sectionsPush pb.sections sect i)
    exact storeInv_add hsect hInv hfresh
  | none =>
    show StoreInv (alistInsert pb.bullets (pb.generate_id sect).2 _)
      (sectionsPush pb.sections sect (pb.generate_id sect).2)
    exact storeInv_add hsect hInv hfresh

/-- Every freshly-reachable store satisfies the §3 invariants. -/
theorem reachF_inv {pb : Playbook} (h : ReachF pb) : PlaybookInv pb := by
  induction h with
  | empty =>
    exact ⟨List.nodup_nil, List.nodup_nil,
      fun s ids h => absurd h (List.not_mem_nil _),
      fun id b h => absurd h (List.not_mem_nil _),
      fun s ids h => absurd h (List.not_mem_nil _)⟩
  | add pb sect content bid? meta now hr hfresh ih =>
    exact add_bullet_inv ih sect content bid? meta now hfresh
  | update pb pb' bid c meta now b hr heq ih =>
    rcases update_bullet_ok_shape heq with ⟨b0, hlk, hsect, hbul, hsec, _⟩
    unfold PlaybookInv
    rw [hbul, hsec]
    exact storeInv_replace ih hlk hsect
  | tagb pb pb' bid t inc now b hr heq ih =>
    rcases tag_bullet_ok_shape heq with ⟨b0, hlk, htag, hbul, hsec, _⟩
    unfold PlaybookInv
    rw [hbul, hsec]
    exact storeInv_replace ih hlk (tag_ok_sect htag)
  | remove pb bid hr ih => exact storeInv_remove ih bid

/-- The TAG loop keeps the store inside the freshly-reachable set. -/
theorem tagLoop_reach {bid : String} {now : Nat} :
    ∀ (meta : List (String × Int)) {pb : Playbook}, ReachF pb →
      ReachF (pb.tagLoop bid now meta).1
  | [], pb, h => h
  | (t, inc) :: rest, pb, h => by
    show ReachF (match pb.tag_bullet bid t inc now with
      | Except.ok pr => Playbook.tagLoop pr.1 bid now rest
      | Except.error e => (pb, some e)).1
    split
    next pr heq =>
      exact tagLoop_reach rest (ReachF.tagb pb pr.1 bid t inc now pr.2 h (by rw [heq]))
    next e heq => exact h

/-- Applying a single delta operation keeps the store inside the
freshly-reachable set, provided an ADD inserts a fresh effective id. -/
theorem applyOperation_reach {pb : Playbook} (op : DeltaOperation) (now : Nat)
    (h : ReachF pb)
    (hfresh : op.type_ = OperationType.ADD →
      pb.effectiveId op.sect op.bullet_id ∉ alistKeys pb.bullets) :
    ReachF (pb.applyOperation op now).1 := by
  unfold Playbook.applyOperation
  cases hty : op.type_ with
  | ADD =>
    exact ReachF.add pb op.sect (op.content.getD "") op.bullet_id
      (coerceMeta op.metadata) now h (hfresh hty)
  | UPDATE =>
    cases op.bullet_id with
    | none => exact h
    | some bid =>
      show ReachF (match pb.update_bullet bid op.content (coerceMeta op.metadata) now with
        | Except.ok pr => (pr.1, none)
        | Except.error e => (pb, some e)).1
      split
      next pr heq =>
        exact ReachF.update pb pr.1 bid op.content (coerceMeta op.metadata) now pr.2 h
          (by rw [heq])
      next e heq => exact h
  | TAG =>
    cases op.bullet_id with
    | none => exact h
    | some bid => exact tagLoop_reach op.metadata h
  | REMOVE =>
    cases op.bullet_id with
    | none => exact h
    | some bid => exact ReachF.remove pb bid h

/-! ### next_id monotonicity -/

theorem add_bullet_next_id (pb : Playbook) (sect content : String)
    (bid? : Option String) (meta : Option (List (String × Nat))) (now : Nat) :
    pb.next_id ≤ (pb.add_bullet sect content bid? meta now).1.next_id := by
  cases bid? with
  | some i => exact Nat.le_refl _
  | none => exact Nat.le_succ _

theorem remove_bullet_next_id (pb : Playbook) (bid : String) :
    (pb.remove_bullet bid).1.next_id = pb.next_id := by
  unfold Playbook.remove_bullet
  split
  · rfl
  · rfl

theorem tagLoop_next_id {bid : String} {now : Nat} :
    ∀ (meta : List (String × Int)) (pb : Playbook),
      (pb.tagLoop bid now meta).1.next_id = pb.next_id
  | [], pb => rfl
  | (t, inc) :: rest, pb => by
    show (match pb.tag_bullet bid t inc now with
      | Except.ok pr => Playbook.tagLoop pr.1 bid now rest
      | Except.error e => (pb, some e)).1.next_id = pb.next_id
    split
    next pr heq =>
      rcases tag_bullet_ok_shape (by rw [heq] : pb.tag_bullet bid t inc now =
          Except.ok (pr.1, pr.2)) with ⟨b0, _, _, _, _, hnid⟩
      rw [tagLoop_next_id rest pr.1, hnid]
    next e heq => rfl

theorem applyOperation_next_id (pb : Playbook) (op : DeltaOperation) (now : Nat) :
    pb.next_id ≤ (pb.applyOperation op now).1.next_id := by
  unfold Playbook.applyOperation
  cases op.type_ with
  | ADD =>
    exact add_bullet_next_id pb op.sect (op.content.getD "") op.bullet_id
      (coerceMeta op.metadata) now
  | UPDATE =>
    cases op.bullet_id with
    | none => exact Nat.le_refl _
    | some bid =>
      show pb.next_id ≤ (match pb.update_bullet bid op.content (coerceMeta op.metadata) now with
        | Except.ok pr => (pr.1, none)
        | Except.error e => (pb, some e)).1.next_id
      split
      next pr heq =>
        rcases update_bullet_ok_shape (by rw [heq] : pb.update_bullet bid op.content
            (coerceMeta op.metadata) now = Except.ok (pr.1, pr.2)) with
          ⟨b0, _, _, _, _, hnid⟩
        rw [hnid]
      next e heq => exact Nat.le_refl _
  | TAG =>
    cases op.bullet_id with
    | none => exact Nat.le_refl _
    | some bid => rw [tagLoop_next_id op.metadata pb]
  | REMOVE =>
    cases op.bullet_id with
    | none => exact Nat.le_refl _
    | some bid => rw [remove_bullet_next_id pb bid]

theorem applyOps_next_id (now : Nat) :
    ∀ (ops : List DeltaOperation) (pb : Playbook),
      pb.next_id ≤ (pb.applyOps now ops).1.next_id
  | [], pb => Nat.le_refl _
  | op :: rest, pb => by
    show pb.next_id ≤ (match pb.applyOperation op now with
      | (pb', none) => pb'.applyOps now rest
      | (pb', some e) => (pb', some e)).1.next_id
    have h1 := applyOperation_next_id pb op now
    split
    next pb' heq =>
      have h2 := applyOps_next_id now rest pb'
      have h3 : pb.next_id ≤ pb'.next_id := by
        have h4 : (pb.applyOperation op now).1 = pb' := by rw [heq]
        rw [← h4]
        exact h1
      exact Nat.le_trans h3 h2
    next pb' e heq =>
      have h4 : (pb.applyOperation op now).1 = pb' := by rw [heq]
      show pb.next_id ≤ pb'.next_id
      rw [← h4]
      exact h1

theorem foldl_bullet_lines (pb : Playbook) (ids : List String) :
    ∀ parts : List String,
      ids.foldl (fun parts bid =>
        match alistLookup pb.bullets bid with
        | none => parts
        | some b => parts ++ [bulletLine b]) parts =
      parts ++ ids.filterMap (fun bid => (alistLookup pb.bullets bid).map bulletLine) := by
  induction ids with
  | nil => intro parts; simp
  | cons bid ids ih =>
    intro parts
    cases hlk : alistLookup pb.bullets bid with
    | none => simp [List.foldl_cons, List.filterMap_cons, hlk, ih]
    | some b => simp [List.foldl_cons, List.filterMap_cons, hlk, ih]

theorem foldl_sections (pb : Playbook) (sects : List String) :
    ∀ parts : List String,
      sects.foldl (fun parts s =>
        let parts := parts ++ ["## " ++ s]
        match alistLookup pb.sections s with
        | none => parts
        | some ids =>
          ids.foldl (fun parts bid =>
            match alistLookup pb.bullets bid with
            | none => parts
            | some b => parts ++ [bulletLine b]) parts) parts =
      parts ++ sects.flatMap (fun s =>
        ("## " ++ s) :: (((alistLookup pb.sections s).getD []).filterMap (fun bid =>
          (alistLookup pb.bullets bid).map bulletLine))) := by
  induction sects with
  | nil => intro parts; simp
  | cons s sects ih =>
    intro parts
    rw [List.foldl_cons, List.flatMap_cons]
    cases hlk : alistLookup pb.sections s with
    | none => simp only [hlk]; rw [ih]; simp
    | some ids =>
      simp only [hlk]
      rw [foldl_bullet_lines, ih]
      simp

theorem as_prompt_eq_promptSpec (pb : Playbook) : pb.as_prompt = promptSpec pb :=
  congrArg (String.intercalate "\n")
    ((foldl_sections pb (sortStrings (alistKeys pb.sections)) []).trans
      (List.nil_append _))

/-! ### Sortedness of the renderer's section order -/

theorem charsLt_asymm : ∀ (as bs : List Char), charsLt as bs = true → charsLt bs as = false
  | [], [] => by intro h; simp [charsLt] at h
  | [], b :: bs => by intro h; simp [charsLt]
  | a :: as, [] => by intro h; simp [charsLt] at h
  | a :: as, b :: bs => by
    intro h
    unfold charsLt at h ⊢
    by_cases h1 : a.toNat < b.toNat
    · have h2 : ¬ b.toNat < a.toNat := by omega
      simp [h1, h2]
    · by_cases h2 : b.toNat < a.toNat
      · simp [h1, h2] at h
      · simp only [if_neg h1, if_neg h2] at h
        simp only [if_neg h2, if_neg h1]
        exact charsLt_asymm as bs h

theorem strLe_total (s t : String) : strLe s t = true ∨ strLe t s = true := by
  unfold strLe
  by_cases h : strLt t s = true
  · right
    unfold strLt at h ⊢
    rw [charsLt_asymm _ _ h]
    rfl
  · left
    simp [h]

/-- `insertSorted` either prepends or passes over the head. -/
theorem insertSorted_cases (s : String) (l : List String) :
    insertSorted s l = s :: l ∨
    ∃ v vs, l = v :: vs ∧ insertSorted s l = v :: insertSorted s vs ∧
      ¬ strLe s v = true := by
  cases l with
  | nil => left; rfl
  | cons v vs =>
    by_cases h : strLe s v = true
    · left; rw [insertSorted, if_pos h]
    · right; exact ⟨v, vs, rfl, by rw [insertSorted, if_neg h], h⟩

theorem chain'_insertSorted (s : String) (l : List String)
    (h : List.Chain' (fun a b => strLe a b = true) l) :
    List.Chain' (fun a b => strLe a b = true) (insertSorted s l) := by
  induction l with
  | nil => simp [insertSorted]
  | cons t rest ih =>
    by_cases hst : strLe s t = true
    · rw [insertSorted, if_pos hst]
      exact List.chain'_cons.mpr ⟨hst, h⟩
    · rw [insertSorted, if_neg hst]
      have hts : strLe t s = true := by
        rcases strLe_total s t with h1 | h1
        · exact absurd h1 hst
        · exact h1
      have hins : List.Chain' (fun a b => strLe a b = true) (insertSorted s rest) := by
        apply ih
        cases rest with
        | nil => exact List.chain'_nil
        | cons v vs => exact (List.chain'_cons.mp h).2
      rcases insertSorted_cases s rest with hcase | ⟨v, vs, hrest, hcase, hsv⟩
      · rw [hcase]
        refine List.chain'_cons.mpr ⟨hts, ?_⟩
        rw [← hcase]
        exact hins
      · rw [hcase]
        refine List.chain'_cons.mpr ⟨?_, ?_⟩
        · have : List.Chain' (fun a b => strLe a b = true) (t :: v :: vs) := hrest ▸ h
          exact (List.chain'_cons.mp this).1
        · rw [← hcase]
          exact hins

theorem chain'_sortStrings (l : List String) :
    List.Chain' (fun a b => strLe a b = true) (sortStrings l) := by
  induction l with
  | nil => exact List.chain'_nil
  | cons s rest ih => exact chain'_insertSorted s _ ih

/-! ### Delta application: order and fail-stop -/

theorem applyOps_cons (pb : Playbook) (now : Nat) (op : DeltaOperation)
    (l : List DeltaOperation) :
    pb.applyOps now (op :: l) =
      match pb.applyOperation op now with
      | (pb', none) => pb'.applyOps now l
      | (pb', some e) => (pb', some e) := rfl

theorem applyOps_append (now : Nat) (rest : List DeltaOperation) :
    ∀ (pre : List DeltaOperation) (pb : Playbook),
      (pb.applyOps now pre).2 = none →
      pb.applyOps now (pre ++ rest) = (pb.applyOps now pre).1.applyOps now rest := by
  intro pre
  induction pre with
  | nil => intro pb h; rfl
  | cons op pre ih =>
    intro pb h
    rw [applyOps_cons] at h
    rw [List.cons_append, applyOps_cons, applyOps_cons]
    rcases hop : pb.applyOperation op now with ⟨pb', err⟩
    rw [hop] at h
    cases err with
    | none => exact ih pb' h
    | some e => exact Option.noConfusion h

/-! ### JSON round trip -/

theorem bullet_round_trip (b : Bullet) : Bullet.from_json b.to_json = Except.ok b := rfl

theorem parseBullets_round (l : List (String × Bullet)) :
    parseBulletsObj (l.map (fun kb => (kb.1, kb.2.to_json))) = Except.ok l := by
  induction l with
  | nil => rfl
  | cons kb rest ih =>
    rw [List.map_cons]
    show (match Bullet.from_json kb.2.to_json, parseBulletsObj
        (rest.map (fun kb => (kb.1, kb.2.to_json))) with
      | Except.ok b, Except.ok bs => Except.ok ((kb.1, b) :: bs)
      | _, _ => Except.error "bullets") = Except.ok (kb :: rest)
    rw [bullet_round_trip, ih]

theorem parseStringArr_round (l : List String) :
    parseStringArr (l.map Json.str) = Except.ok l := by
  induction l with
  | nil => rfl
  | cons s rest ih =>
    rw [List.map_cons]
    show (match parseStringArr (rest.map Json.str) with
      | Except.ok ss => Except.ok (s :: ss)
      | Except.error e => Except.error e) = Except.ok (s :: rest)
    rw [ih]

theorem parseSections_round (l : List (String × List String)) :
    parseSectionsObj (l.map (fun ks => (ks.1, Json.arr (ks.2.map Json.str)))) =
      Except.ok l := by
  induction l with
  | nil => rfl
  | cons ks rest ih =>
    rw [List.map_cons]
    show (match parseStringArr (ks.2.map Json.str), parseSectionsObj
        (rest.map (fun ks => (ks.1, Json.arr (ks.2.map Json.str)))) with
      | Except.ok ids, Except.ok ss => Except.ok ((ks.1, ids) :: ss)
      | _, _ => Except.error "sections") = Except.ok (ks :: rest)
    rw [parseStringArr_round, ih]

/-! ### Claim-level helper lemmas -/

theorem satAddSigned_eq (x : Nat) (d : Int) :
    satAddSigned x d = (min (max ((x : Int) + d) 0) 4294967295).toNat := by
  unfold satAddSigned u32max
  omega

theorem parseOpType_eq_none_iff (s : String) :
    parseOpType s = none ↔ (s ≠ "ADD" ∧ s ≠ "UPDATE" ∧ s ≠ "TAG" ∧ s ≠ "REMOVE") := by
  unfold parseOpType
  by_cases h1 : s = "ADD" <;> by_cases h2 : s = "UPDATE" <;> by_cases h3 : s = "TAG" <;>
    by_cases h4 : s = "REMOVE" <;> simp [h1, h2, h3, h4]

theorem from_json_invalid_op {p : Json} {s : String}
    (h : (p.index "type").as_str = some s)
    (hpt : parseOpType (rustToUpper s) = none) :
    DeltaOperation.from_json p =
      Except.error (DeltaParseError.invalidOperationType (rustToUpper s)) := by
  unfold DeltaOperation.from_json
  simp only [h, hpt]

theorem from_json_valid_op {p : Json} {s : String} {ot : OperationType}
    (h : (p.index "type").as_str = some s)
    (hpt : parseOpType (rustToUpper s) = some ot) :
    ∃ op, DeltaOperation.from_json p = Except.ok op := by
  unfold DeltaOperation.from_json
  simp only [h, hpt]
  exact ⟨_, rfl⟩

/-! ### The claims -/

/-- C1: the claim says every stored bullet's `id` field equals its key in
the `bullets` map, and that `add_bullet` stores and returns a bullet
carrying the supplied or generated id.  The code contradicts this:
`Bullet::new` initialises `id` to the empty string and `add_bullet` never
assigns the key to the field, so the stored and returned bullet's `id`
is `""`, not `"retry-00001"`. -/
theorem C1_add_bullet_id_field_bug :
    (Playbook.new.add_bullet "Retry" "Use backoff" (some "retry-00001") none 0).2.id = "" ∧
    (alistLookup (Playbook.new.add_bullet "Retry" "Use backoff" (some "retry-00001") none
        0).1.bullets "retry-00001").map Bullet.id = some "" ∧
    ("" : String) ≠ "retry-00001" := ⟨rfl, rfl, by decide⟩

/-- C2 counterexample: the invariants do not hold for every store reachable
through the CRUD operations — adding id "x" under section "A" and then
again under section "B" leaves a stale entry in section "A"'s sequence
whose bullet's `section` field is "B", so the §3 invariants fail. -/
theorem C2_stale_section_counterexample :
    Reach pbStale ∧
    (("A", ["x"]) ∈ pbStale.sections ∧
      (alistLookup pbStale.bullets "x").map Bullet.sect = some "B") ∧
    ¬ PlaybookInv pbStale := by
  refine ⟨?_, ⟨by decide, rfl⟩, ?_⟩
  · exact Reach.add _ "B" "c2" (some "x") none 1
      (Reach.add _ "A" "c1" (some "x") none 0 Reach.empty)
  · intro h
    rcases h.indexed "A" ["x"] (by decide) "x" (by decide) with ⟨b, hb, hsect⟩
    have hconc : alistLookup pbStale.bullets "x" = some (Bullet.new 1 "B" "c2") := rfl
    rw [hconc] at hb
    rw [← Option.some.inj hb] at hsect
    exact absurd hsect (by decide)

/-- C2 (amended): for every store reachable from the empty store through
the CRUD operations in which each `add_bullet` inserts a fresh effective
id, the §3 invariants hold (duplicate-free keys; every listed id resolves
to a bullet owned by that section; every bullet occurs exactly once in
its own section's sequence; no empty section); delta operations only move
between such stores under the same freshness condition; and `next_id`
never decreases across any CRUD operation or delta application,
unconditionally. -/
theorem C2_invariants_amended :
    (∀ pb : Playbook, ReachF pb → PlaybookInv pb) ∧
    (∀ (pb : Playbook) (op : DeltaOperation) (now : Nat), ReachF pb →
      (op.type_ = OperationType.ADD →
        pb.effectiveId op.sect op.bullet_id ∉ alistKeys pb.bullets) →
      ReachF (pb.applyOperation op now).1) ∧
    (∀ (pb : Playbook) (sect content : String) (bid? : Option String)
      (meta : Option (List (String × Nat))) (now : Nat),
      pb.next_id ≤ (pb.add_bullet sect content bid? meta now).1.next_id) ∧
    (∀ (pb : Playbook) (bid : String), (pb.remove_bullet bid).1.next_id = pb.next_id) ∧
    (∀ (pb : Playbook) (bid : String) (c : Option String)
      (meta : Option (List (String × Nat))) (now : Nat) (pb' : Playbook) (b : Bullet),
      pb.update_bullet bid c meta now = Except.ok (pb', b) → pb'.next_id = pb.next_id) ∧
    (∀ (pb : Playbook) (bid t : String) (inc : Int) (now : Nat) (pb' : Playbook)
      (b : Bullet),
      pb.tag_bullet bid t inc now = Except.ok (pb', b) → pb'.next_id = pb.next_id) ∧
    (∀ (pb : Playbook) (d : DeltaBatch) (now : Nat),
      pb.next_id ≤ (pb.apply_delta d now).1.next_id) := by
  refine ⟨fun pb h => reachF_inv h,
    fun pb op now h hf => applyOperation_reach op now h hf,
    add_bullet_next_id, remove_bullet_next_id, ?_, ?_,
    fun pb d now => applyOps_next_id now d.operations pb⟩
  · intro pb bid c meta now pb' b h
    rcases update_bullet_ok_shape h with ⟨b0, _, _, _, _, hnid⟩
    exact hnid
  · intro pb bid t inc now pb' b h
    rcases tag_bullet_ok_shape h with ⟨b0, _, _, _, _, hnid⟩
    exact hnid

/-- C2 witness: the invariants hold at the concrete reachable store built
by one fresh generated-id add. -/
theorem C2_invariants_witness :
    PlaybookInv (Playbook.new.add_bullet "Retry" "Use backoff" none none 0).1 :=
  C2_invariants_amended.1 _
    (ReachF.add Playbook.new "Retry" "Use backoff" none none 0 ReachF.empty
      (List.not_mem_nil _))

/-- C3: `apply_delta` applies the batch's operations strictly in list
order; if the operations split as `pre ++ op :: post` where every
operation of `pre` succeeds and `op` fails with error `e`, the result is
the state reached after `pre` plus `op`'s own partial effect, the error
`e` is surfaced, and `post` has no effect (it does not appear in the
result). -/
theorem C3_apply_delta_order :
    (∀ (pb : Playbook) (now : Nat) (pre rest : List DeltaOperation),
      (pb.applyOps now pre).2 = none →
      pb.applyOps now (pre ++ rest) = (pb.applyOps now pre).1.applyOps now rest) ∧
    (∀ (pb : Playbook) (now : Nat) (r : String) (pre : List DeltaOperation)
      (op : DeltaOperation) (post : List DeltaOperation) (e : PlaybookError),
      (pb.applyOps now pre).2 = none →
      ((pb.applyOps now pre).1.applyOperation op now).2 = some e →
      pb.apply_delta ⟨r, pre ++ op :: post⟩ now =
        (((pb.applyOps now pre).1.applyOperation op now).1, some e)) := by
  refine ⟨fun pb now pre rest h => applyOps_append now rest pre pb h, ?_⟩
  intro pb now r pre op post e h1 h2
  show pb.applyOps now (pre ++ op :: post) = _
  rw [applyOps_append now (op :: post) pre pb h1, applyOps_cons]
  rcases hop : (pb.applyOps now pre).1.applyOperation op now with ⟨pb2, err⟩
  rw [hop] at h2
  cases err with
  | none => exact Option.noConfusion h2
  | some e2 =>
    rw [show e2 = e from Option.some.inj h2]

/-- C3 witness: a batch whose second operation is an UPDATE without a
`bullet_id` stops there with `DeltaMissingField`, keeping the first ADD's
effect and ignoring the third operation. -/
theorem C3_apply_delta_order_witness :
    Playbook.apply_delta Playbook.new ⟨"init", [opAddRetry, opBadUpdate, opAddRetry]⟩ 0 =
      (((Playbook.new.applyOps 0 [opAddRetry]).1.applyOperation opBadUpdate 0).1,
        some (PlaybookError.DeltaMissingField "bullet_id required for UPDATE")) :=
  C3_apply_delta_order.2 Playbook.new 0 "init" [opAddRetry] opBadUpdate [opAddRetry]
    (PlaybookError.DeltaMissingField "bullet_id required for UPDATE") rfl rfl

/-- C4 counterexample: the claim's formula `max(0, current + delta)` fails
at the `u32` upper bound — tagging `helpful = u32::MAX` with `+1` leaves
the counter at `u32::MAX` (`saturating_add_signed` clamps at both ends),
while the claim's formula demands `u32::MAX + 1`. -/
theorem C4_saturation_counterexample :
    (bMax.tag "helpful" 1 5).map Bullet.helpful = Except.ok 4294967295 ∧
    (4294967295 : Nat) ≠ (max ((4294967295 : Int) + 1) 0).toNat := ⟨rfl, by decide⟩

/-- C4 (amended): `tag(name, delta)` sets the named counter to
`min(u32::MAX, max(0, current + delta))` — never negative — and sets
`updated_at` to the current time; an unrecognized name fails with
`InvalidTag` and changes nothing; `tag_bullet` fails with
`BulletNotFound` for an absent id and otherwise propagates `tag`'s
result, storing the updated bullet. -/
theorem C4_tag_clamped_amended :
    (∀ (b : Bullet) (inc : Int) (now : Nat),
      b.tag "helpful" inc now = Except.ok { b with
        helpful := (min (max ((b.helpful : Int) + inc) 0) 4294967295).toNat,
        updated_at := now }) ∧
    (∀ (b : Bullet) (inc : Int) (now : Nat),
      b.tag "harmful" inc now = Except.ok { b with
        harmful := (min (max ((b.harmful : Int) + inc) 0) 4294967295).toNat,
        updated_at := now }) ∧
    (∀ (b : Bullet) (inc : Int) (now : Nat),
      b.tag "neutral" inc now = Except.ok { b with
        neutral := (min (max ((b.neutral : Int) + inc) 0) 4294967295).toNat,
        updated_at := now }) ∧
    (∀ (b : Bullet) (t : String) (inc : Int) (now : Nat),
      t ≠ "helpful" → t ≠ "harmful" → t ≠ "neutral" →
      b.tag t inc now = Except.error (PlaybookError.InvalidTag t)) ∧
    (∀ (pb : Playbook) (bid t : String) (inc : Int) (now : Nat),
      alistLookup pb.bullets bid = none →
      pb.tag_bullet bid t inc now = Except.error (PlaybookError.BulletNotFound bid)) ∧
    (∀ (pb : Playbook) (bid : String) (b : Bullet) (t : String) (inc : Int) (now : Nat),
      alistLookup pb.bullets bid = some b →
      pb.tag_bullet bid t inc now = (b.tag t inc now).map
        (fun b' => ({ pb with bullets := alistInsert pb.bullets bid b' }, b'))) := by
  refine ⟨?_, ?_, ?_, ?_, ?_, ?_⟩
  · intro b inc now
    unfold Bullet.tag
    rw [if_pos rfl, satAddSigned_eq]
  · intro b inc now
    unfold Bullet.tag
    rw [if_neg (by decide : ¬ ("harmful" : String) = "helpful"), if_pos rfl, satAddSigned_eq]
  · intro b inc now
    unfold Bullet.tag
    rw [if_neg (by decide : ¬ ("neutral" : String) = "helpful"),
      if_neg (by decide : ¬ ("neutral" : String) = "harmful"), if_pos rfl, satAddSigned_eq]
  · intro b t inc now h1 h2 h3
    unfold Bullet.tag
    rw [if_neg h1, if_neg h2, if_neg h3]
  · intro pb bid t inc now h
    unfold Playbook.tag_bullet
    rw [h]
  · intro pb bid b t inc now h
    unfold Playbook.tag_bullet
    rw [h]
    show (match b.tag t inc now with
      | Except.error e => Except.error e
      | Except.ok b' =>
        Except.ok ({ pb with bullets := alistInsert pb.bullets bid b' }, b')) = _
    cases htag : b.tag t inc now <;> rfl

/-- C4 witness: an unrecognized tag name fails with `InvalidTag`, and an
absent bullet id fails with `BulletNotFound`. -/
theorem C4_tag_clamped_witness :
    Bullet.tag bMax "bogus" 2 7 = Except.error (PlaybookError.InvalidTag "bogus") ∧
    Playbook.tag_bullet Playbook.new "nope" "helpful" 1 0 =
      Except.error (PlaybookError.BulletNotFound "nope") :=
  ⟨C4_tag_clamped_amended.2.2.2.1 bMax "bogus" 2 7 (by decide) (by decide) (by decide),
   C4_tag_clamped_amended.2.2.2.2.1 Playbook.new "nope" "helpful" 1 0 rfl⟩

/-- C5 counterexample: a structurally invalid (non-object) entry in the
operations array does not abort the batch parse — it is silently skipped
and the following object still parses, so a partial batch is produced. -/
theorem C5_skip_nonobject_counterexample :
    DeltaBatch.from_json c5Payload = Except.ok
      { reasoning := "r", operations := [c5ParsedOp] } := rfl

/-- C5 (amended): parsing a single operation whose `type` field is a
string `s` fails with `InvalidOperationType` exactly when the uppercased
`s` matches none of ADD/UPDATE/TAG/REMOVE; among the object entries of
the operations array the parse is fail-fast — the first failing object
aborts the whole batch parse with its error (non-object entries are
skipped); and the batch parse fails exactly when the operations loop
fails, producing no partial batch. -/
theorem C5_parse_failfast_amended :
    (∀ (p : Json) (s : String), (p.index "type").as_str = some s →
      (isInvalidOpType (DeltaOperation.from_json p) ↔
        (rustToUpper s ≠ "ADD" ∧ rustToUpper s ≠ "UPDATE" ∧ rustToUpper s ≠ "TAG" ∧
          rustToUpper s ≠ "REMOVE"))) ∧
    (∀ (pre : List Json) (item : Json) (post : List Json) (e : DeltaParseError),
      item.isObj = true →
      (∀ x ∈ pre, x.isObj = true → ∃ op, DeltaOperation.from_json x = Except.ok op) →
      DeltaOperation.from_json item = Except.error e →
      parseOpsItems (pre ++ item :: post) = Except.error e) ∧
    (∀ (p : Json) (e : DeltaParseError),
      DeltaBatch.from_json p = Except.error e ↔
        parseOpsItems (((p.index "operations").as_array).getD []) = Except.error e) := by
  refine ⟨?_, ?_, ?_⟩
  · intro p s h
    cases hpt : parseOpType (rustToUpper s) with
    | none =>
      rw [from_json_invalid_op h hpt]
      show True ↔ _
      simp only [true_iff]
      exact (parseOpType_eq_none_iff _).mp hpt
    | some ot =>
      rcases from_json_valid_op h hpt with ⟨op, hop⟩
      rw [hop]
      show False ↔ _
      simp only [false_iff]
      intro hcon
      rw [(parseOpType_eq_none_iff _).mpr hcon] at hpt
      exact Option.noConfusion hpt
  · intro pre
    induction pre with
    | nil =>
      intro item post e hobj hpre hfail
      cases item with
      | obj fields =>
        show (match DeltaOperation.from_json (Json.obj fields) with
          | Except.error e => Except.error e
          | Except.ok op =>
            match parseOpsItems post with
            | Except.error e => Except.error e
            | Except.ok ops => Except.ok (op :: ops)) = Except.error e
        rw [hfail]
      | null => exact Bool.noConfusion hobj
      | bool b => exact Bool.noConfusion hobj
      | num n => exact Bool.noConfusion hobj
      | str s => exact Bool.noConfusion hobj
      | arr xs => exact Bool.noConfusion hobj
    | cons x pre ih =>
      intro item post e hobj hpre hfail
      have hrec := ih item post e hobj
        (fun y hy hyo => hpre y (List.mem_cons_of_mem _ hy) hyo) hfail
      cases x with
      | obj fx =>
        rcases hpre (Json.obj fx) (List.mem_cons_self _ _) rfl with ⟨op, hop⟩
        show (match DeltaOperation.from_json (Json.obj fx) with
          | Except.error e => Except.error e
          | Except.ok op =>
            match parseOpsItems (pre ++ item :: post) with
            | Except.error e => Except.error e
            | Except.ok ops => Except.ok (op :: ops)) = Except.error e
        rw [hop, hrec]
      | null => exact hrec
      | bool b => exact hrec
      | num n => exact hrec
      | str s => exact hrec
      | arr xs => exact hrec
  · intro p e
    unfold DeltaBatch.from_json
    cases hpo : parseOpsItems (((p.index "operations").as_array).getD []) with
    | error e2 =>
      show (Except.error e2 : Except DeltaParseError DeltaBatch) = Except.error e ↔
        (Except.error e2 : Except DeltaParseError (List DeltaOperation)) = Except.error e
      simp only [Except.error.injEq]
    | ok ops =>
      constructor
      · intro h; exact Except.noConfusion h
      · intro h; exact Except.noConfusion h

/-- C5 witness: an operation object with kind string "bogus" fails with
`InvalidOperationType`. -/
theorem C5_parse_failfast_witness :
    isInvalidOpType (DeltaOperation.from_json (Json.obj [("type", Json.str "bogus")])) :=
  (C5_parse_failfast_amended.1 (Json.obj [("type", Json.str "bogus")]) "bogus" rfl).mpr
    (by decide)

/-- C6 counterexample: `as_prompt` of a store with no bullets is the empty
string, not a non-empty empty-state marker; the `"Playbook(empty)"`
marker is produced by the `Display` implementation instead. -/
theorem C6_empty_store_counterexample :
    Playbook.new.as_prompt = "" ∧ Playbook.new.displayString = "Playbook(empty)" ∧
    ("" : String) ≠ "Playbook(empty)" := ⟨rfl, rfl, by decide⟩

/-- C6 (amended): `as_prompt` equals the §4.5 rendering — sections in
ascending lexicographic name order, each a `## name` heading followed by
one line per resolving bullet id in stored order, the line carrying the
bullet's `id` field, content and `(helpful=…, harmful=…, neutral=…)`
summary; the emitted section order is sorted; and the empty-state marker
`"Playbook(empty)"` is produced by the Display rendering for a store with
no bullets, while `as_prompt` itself yields the empty string there. -/
theorem C6_as_prompt_amended :
    (∀ pb : Playbook, pb.as_prompt = promptSpec pb) ∧
    (∀ pb : Playbook,
      List.Chain' (fun a b => strLe a b = true) (sortStrings (alistKeys pb.sections))) ∧
    (∀ pb : Playbook, pb.displayString =
      if pb.bullets.isEmpty then "Playbook(empty)" else pb.as_prompt) :=
  ⟨as_prompt_eq_promptSpec, fun pb => chain'_sortStrings _, fun pb => rfl⟩

/-- C7 counterexample: the tags sub-aggregate's keys come out of the
`BTreeMap` in lexicographic order harmful, helpful, neutral — not in the
claimed fixed order helpful, harmful, neutral. -/
theorem C7_tag_order_counterexample :
    alistLookup pbC7.stats "tags" =
      some (StatValue.obj [("harmful", 1), ("helpful", 2), ("neutral", 3)]) ∧
    (["harmful", "helpful", "neutral"] : List String) ≠
      ["helpful", "harmful", "neutral"] := ⟨rfl, by decide⟩

/-- C7 (amended): `stats` returns, in the deterministic sorted key order
bullets, sections, tags, the total bullet count, the total section count,
and the tags sub-aggregate holding the sums of the three counters over
all bullets with its keys in lexicographic order harmful, helpful,
neutral. -/
theorem C7_stats_amended (pb : Playbook) :
    pb.stats = [("bullets", StatValue.num pb.bullets.length),
      ("sections", StatValue.num pb.sections.length),
      ("tags", StatValue.obj [("harmful", pb.sumHarmful), ("helpful", pb.sumHelpful),
        ("neutral", pb.sumNeutral)])] := rfl

/-- C8: `add_bullet` with an explicit id leaves `next_id` unchanged; with
no id it increments `next_id` by 1 (whatever the section) and stores the
bullet under the generated id, which is the lowercased first
whitespace-delimited token of the section name (the literal "default"
when there is none) followed by "-" and the new `next_id` zero-padded to
5 digits. -/
theorem C8_generate_id :
    (∀ (pb : Playbook) (sect content id : String)
      (meta : Option (List (String × Nat))) (now : Nat),
      (pb.add_bullet sect content (some id) meta now).1.next_id = pb.next_id) ∧
    (∀ (pb : Playbook) (sect content : String) (meta : Option (List (String × Nat)))
      (now : Nat),
      (pb.add_bullet sect content none meta now).1.next_id = pb.next_id + 1) ∧
    (∀ (pb : Playbook) (sect : String),
      (pb.generate_id sect).2 =
        rustToLower ((firstWsToken sect).getD "default") ++ "-" ++ pad5 (pb.next_id + 1)) ∧
    (∀ (pb : Playbook) (sect content : String) (meta : Option (List (String × Nat)))
      (now : Nat),
      alistLookup (pb.add_bullet sect content none meta now).1.bullets
        (pb.generate_id sect).2 = some (pb.add_bullet sect content none meta now).2) :=
  ⟨fun _ _ _ _ _ _ => rfl, fun _ _ _ _ _ => rfl, fun _ _ => rfl,
   fun pb sect content meta now => lookup_insert_self _ _ _⟩

/-- C9: serializing a store to its JSON tree and parsing it back yields
the store unchanged — same bullets with counters and timestamps, same
section orderings, same `next_id`. -/
theorem C9_json_round_trip (pb : Playbook) :
    Playbook.from_json (Playbook.to_json pb) = Except.ok pb := by
  rcases pb with ⟨bullets, sections, next_id⟩
  show (match parseBulletsObj (bullets.map fun kb => (kb.1, kb.2.to_json)),
      parseSectionsObj (sections.map fun ks => (ks.1, Json.arr (ks.2.map Json.str))) with
    | Except.ok bs, Except.ok ss =>
      Except.ok { bullets := bs, sections := ss, next_id := next_id }
    | _, _ => Except.error "playbook") =
    Except.ok ({ bullets := bullets, sections := sections, next_id := next_id } : Playbook)
  rw [parseBullets_round, parseSections_round]

/-- C10: `update_bullet(id, None, None)` on a present id succeeds,
replaces the stored bullet by one identical except that `updated_at` is
set to the current time (id, section, content, counters and `created_at`
untouched), and leaves `sections` and `next_id` unchanged — so such an
update is not a no-op. -/
theorem C10_update_refreshes_updated_at (pb : Playbook) (bid : String) (b : Bullet)
    (now : Nat) (h : alistLookup pb.bullets bid = some b) :
    pb.update_bullet bid none none now =
      Except.ok ({ pb with
          bullets := alistInsert pb.bullets bid { b with updated_at := now } },
        { b with updated_at := now }) := by
  unfold Playbook.update_bullet
  rw [h]

/-- C10 witness: the empty-update applied at a concrete store. -/
theorem C10_update_witness :
    pbW.update_bullet "x" none none 9 =
      Except.ok ({ pbW with
          bullets := alistInsert pbW.bullets "x" { Bullet.new 3 "S" "c" with
            updated_at := 9 } },
        { Bullet.new 3 "S" "c" with updated_at := 9 }) :=
  C10_update_refreshes_updated_at pbW "x" (Bullet.new 3 "S" "c") 9 rfl

end Ace
